import Mathlib

/-!
Verification of the `formatStringWithData` template-interpolation engine
(`src/formatStringWithData.ts`) against its specification.

The embedding is executable and fuel-based so that concrete runs reduce in the
kernel.  JavaScript machine details are modelled as follows: JSON numbers are
`Int` (all numbers appearing in the development are integral; IEEE-754
fractional values are not exercised by any claim), `undefined` is `Option.none`,
strings are Lean `String`s over their character lists.  The host's
`toLocaleDateString` is modelled as the en-US short date (`M/D/YYYY`) of the
UTC calendar day, and the host date-string parser is modelled by a strict
ISO `YYYY-MM-DD` parser.
-/

set_option maxRecDepth 8192

/-- The apostrophe character `'`, used as the string-literal quote by the
transformation-argument grammar. -/
def quoteChar : Char := Char.ofNat 39

/-- JavaScript `\s` / `trim` whitespace, restricted to the ASCII whitespace
characters (the only ones exercised anywhere in the development). -/
def isWsChar (c : Char) : Bool := c == ' ' || c == '\t' || c == '\n' || c == '\r'

/-- JavaScript `\w`: `[A-Za-z0-9_]`. -/
def isWordChar (c : Char) : Bool := c.isAlpha || c.isDigit || c == '_'

/-- Characters allowed inside a placeholder body by the scanner regex
`{{([^{}]*?)}}`: everything except the two brace characters. -/
def isNotBrace (c : Char) : Bool := c != '{' && c != '}'

/-- JavaScript line terminators, which `.` in a regex does not match. -/
def isLineTerm (c : Char) : Bool :=
  c == '\n' || c == '\r' || c.toNat == 8232 || c.toNat == 8233

/-- JavaScript `String.prototype.trim` on a character list. -/
def jsTrim (cs : List Char) : List Char :=
  ((cs.dropWhile isWsChar).reverse.dropWhile isWsChar).reverse

mutual

/-- The `Json` data-document type of `formatStringWithData.ts`
(`type Json = null | boolean | number | string | Json[] | {[prop]: Json}`).
Arrays and objects use a bespoke spine so that the display function below is
structurally recursive (hence kernel-reducible). -/
inductive Json where
  | null
  | bool (b : Bool)
  | num (n : Int)
  | str (s : String)
  | arr (l : JsonList)
  | obj (kvs : JsonKVs)

/-- Ordered sequence of `Json` values (a JavaScript array). -/
inductive JsonList where
  | nil
  | cons (hd : Json) (tl : JsonList)

/-- Ordered key/value entries of a JavaScript object (keys unique). -/
inductive JsonKVs where
  | nil
  | cons (key : String) (val : Json) (tl : JsonKVs)

end

/-- Build a `JsonList` from a Lean list. -/
def JsonList.ofList : List Json → JsonList
  | [] => JsonList.nil
  | h :: t => JsonList.cons h (JsonList.ofList t)

/-- Build a `JsonKVs` from a Lean association list. -/
def JsonKVs.ofList : List (String × Json) → JsonKVs
  | [] => JsonKVs.nil
  | (k, v) :: t => JsonKVs.cons k v (JsonKVs.ofList t)

/-- Array document from a Lean list. -/
def jarr (l : List Json) : Json := Json.arr (JsonList.ofList l)

/-- Object document from a Lean association list. -/
def jobj (l : List (String × Json)) : Json := Json.obj (JsonKVs.ofList l)

/-- Length of a `JsonList` (JavaScript `array.length`). -/
def JsonList.length : JsonList → Nat
  | JsonList.nil => 0
  | JsonList.cons _ t => t.length + 1

/-- Element access in a `JsonList` (JavaScript `array[i]`). -/
def JsonList.get? : JsonList → Nat → Option Json
  | JsonList.nil, _ => none
  | JsonList.cons h _, 0 => some h
  | JsonList.cons _ t, n + 1 => t.get? n

mutual

/-- JavaScript `String(value)` on a `Json` value: the display-string
conversion used by the evaluator and by the transformations.  Objects render
as `"[object Object]"`; arrays render as their comma-joined elements with
`null` elements rendered empty (JavaScript `Array.prototype.toString`). -/
def jsString : Json → String
  | Json.null => "null"
  | Json.bool b => if b then "true" else "false"
  | Json.num n => toString n
  | Json.str s => s
  | Json.arr l => jsStringArr l
  | Json.obj _ => "[object Object]"

/-- JavaScript `Array.prototype.join(",")` as invoked by `String(array)`:
elements converted by `String(·)` except `null`, which joins as `""`. -/
def jsStringArr : JsonList → String
  | JsonList.nil => ""
  | JsonList.cons e tl =>
      (match e with
       | Json.null => ""
       | _ => jsString e)
      ++ (match tl with
          | JsonList.nil => ""
          | _ => "," ++ jsStringArr tl)

end

/-- Split a character list on `'.'` — JavaScript `path.split(".")` for a
nonempty `path` (the only way `resolveDataPath` calls it). -/
def splitDot : List Char → List (List Char)
  | [] => [[]]
  | c :: rest =>
    if c = '.' then [] :: splitDot rest
    else
      match splitDot rest with
      | [] => [[c]]
      | h :: t => (c :: h) :: t

/-- Whether `cs` is the canonical decimal numeral of a natural number:
JavaScript array own-index property names are exactly these strings
(up to the `2^32 - 1` bound, far beyond any list in scope). -/
def isCanonDigits (cs : List Char) : Bool :=
  !cs.isEmpty && cs.all Char.isDigit && (cs.head? != some '0' || cs == ['0'])

/-- Numeric value of a digit string. -/
def digitsVal (cs : List Char) : Nat :=
  cs.foldl (fun a c => a * 10 + (c.toNat - 48)) 0

/-- JavaScript `part in arr ? arr[part] : undefined` for an array: canonical
index strings select the element, `"length"` selects the length; inherited
`Array.prototype` methods (functions, not `Json` data) are outside the model. -/
def jsArrGet (l : JsonList) (part : String) : Option Json :=
  if isCanonDigits part.data then l.get? (digitsVal part.data)
  else if part = "length" then some (Json.num (l.length : Int)) else none

/-- JavaScript `part in obj ? obj[part] : undefined` for an object literal
(own keys). -/
def jsObjGet : JsonKVs → String → Option Json
  | JsonKVs.nil, _ => none
  | JsonKVs.cons k v tl, part => if k = part then some v else jsObjGet tl part

/-- One traversal step of `resolveDataPath`: the source's
`current && typeof current === "object" && part in current` guard followed by
`current[part]`.  `null` is falsy, and primitives are not objects, so only
arrays and objects are indexable. -/
def jsPropGet (current : Json) (part : String) : Option Json :=
  match current with
  | Json.obj kvs => jsObjGet kvs part
  | Json.arr l => jsArrGet l part
  | _ => none

/-- The `for (const part of parts)` loop of `resolveDataPath`. -/
def resolveDataPathAux : List (List Char) → Json → Option Json
  | [], cur => some cur
  | p :: rest, cur =>
    match jsPropGet cur (String.mk p) with
    | some nxt => resolveDataPathAux rest nxt
    | none => none

/-- `resolveDataPath(data, path)` of `formatStringWithData.ts`: empty path is
not found; otherwise split on `.` and traverse.  `none` is the JavaScript
`undefined` ("NotFound"). -/
def resolveDataPath (data : Json) (path : String) : Option Json :=
  if path = "" then none else resolveDataPathAux (splitDot path.data) data

/-- A parsed transformation argument: a string (quoted literal or bare token)
or an array literal of strings — exactly the shapes `parseTransformationArgs`
can produce. -/
inductive TArg where
  | str (s : String)
  | arr (l : List String)

/-- JavaScript truthiness of a parsed argument (`keyArg ? … : undefined`):
only the empty string is falsy; arrays (even empty) are truthy. -/
def TArg.truthy : TArg → Bool
  | TArg.str s => !s.data.isEmpty
  | TArg.arr _ => true

/-- Comma-join of a list of strings (JavaScript `array.toString()` for an
array of strings). -/
def joinComma : List String → String
  | [] => ""
  | [s] => s
  | s :: rest => s ++ "," ++ joinComma rest

/-- JavaScript `String(arg)` on a parsed argument. -/
def TArg.display : TArg → String
  | TArg.str s => s
  | TArg.arr l => joinComma l

/-- The bare-token regex alternative `[^,\s][^,]*` followed by `\s*(,|$)`:
take everything up to the next top-level comma (consuming it).  Defined on a
list already stripped of leading whitespace whose head is not a comma; the
match always succeeds there. -/
def bareToken (cs1 : List Char) : List Char × List Char :=
  (cs1.takeWhile (fun c => c != ','), (cs1.dropWhile (fun c => c != ',')).tail)

/-- One anchored attempt of the argument regex
`\s*(\[[^\]]*\]|'[^']*'|[^,\s][^,]*)\s*(,|$)` of `parseTransformationArgs`:
skip whitespace, try the array-literal alternative, then the quoted-string
alternative, then the bare token, each alternative requiring the trailing
`\s*(,|$)` and backtracking to the bare token when that fails.  Returns the
raw captured group and the remaining input (comma consumed), or `none` when
no alternative matches at this position. -/
def matchArgAt (cs : List Char) : Option (List Char × List Char) :=
  let cs1 := cs.dropWhile isWsChar
  match cs1 with
  | [] => none
  | c :: _ =>
    if c == ',' then none
    else if c == '[' then
      match cs1.tail.dropWhile (fun x => x != ']') with
      | [] => some (bareToken cs1)
      | _ :: rest1 =>
        let tok := '[' :: cs1.tail.takeWhile (fun x => x != ']') ++ [']']
        match rest1.dropWhile isWsChar with
        | [] => some (tok, [])
        | c2 :: r2 => if c2 == ',' then some (tok, r2) else some (bareToken cs1)
    else if c == quoteChar then
      match cs1.tail.dropWhile (fun x => x != quoteChar) with
      | [] => some (bareToken cs1)
      | _ :: rest1 =>
        let tok := quoteChar :: cs1.tail.takeWhile (fun x => x != quoteChar) ++ [quoteChar]
        match rest1.dropWhile isWsChar with
        | [] => some (tok, [])
        | c2 :: r2 => if c2 == ',' then some (tok, r2) else some (bareToken cs1)
    else some (bareToken cs1)

/-- The `while ((match = regex.exec(argsString)) !== null)` loop: collect raw
tokens left to right, advancing one character past positions where no match
starts (the JavaScript global-`exec` forward scan).  Fuel bounds the loop by
the input length; every successful match consumes at least one character. -/
def execArgsLoop : Nat → List Char → List (List Char)
  | 0, _ => []
  | n + 1, cs =>
    match matchArgAt cs with
    | some (tok, rest) => tok :: execArgsLoop n rest
    | none =>
      match cs with
      | [] => []
      | _ :: t => execArgsLoop n t

/-- One anchored attempt of the array-element regex
`\s*('[^']*'|[^,\s][^,]*)\s*(,|$)` used inside an array literal. -/
def matchElemAt (cs : List Char) : Option (List Char × List Char) :=
  let cs1 := cs.dropWhile isWsChar
  match cs1 with
  | [] => none
  | c :: _ =>
    if c == ',' then none
    else if c == quoteChar then
      match cs1.tail.dropWhile (fun x => x != quoteChar) with
      | [] => some (bareToken cs1)
      | _ :: rest1 =>
        let tok := quoteChar :: cs1.tail.takeWhile (fun x => x != quoteChar) ++ [quoteChar]
        match rest1.dropWhile isWsChar with
        | [] => some (tok, [])
        | c2 :: r2 => if c2 == ',' then some (tok, r2) else some (bareToken cs1)
    else some (bareToken cs1)

/-- The `while ((arrMatch = arrRegex.exec(inner)) !== null)` loop. -/
def execElemsLoop : Nat → List Char → List (List Char)
  | 0, _ => []
  | n + 1, cs =>
    match matchElemAt cs with
    | some (tok, rest) => tok :: execElemsLoop n rest
    | none =>
      match cs with
      | [] => []
      | _ :: t => execElemsLoop n t

/-- Parse the interior of an array-literal token: trim each element and unwrap
a single layer of quotes (`element.slice(1, -1)`) when the element both starts
and ends with a quote. -/
def parseArrayLiteral (token : List Char) : List String :=
  let inner := jsTrim (token.tail.dropLast)
  if inner.isEmpty then []
  else
    (execElemsLoop inner.length inner).map (fun e =>
      let e1 := jsTrim e
      if e1.head? == some quoteChar && e1.getLast? == some quoteChar then
        String.mk (e1.tail.dropLast)
      else String.mk e1)

/-- Token classification in `parseTransformationArgs`: trim, then array
literal (`[`…`]`), quoted string (`'`…`'`, quotes removed), or bare string. -/
def classifyToken (raw : List Char) : TArg :=
  let token := jsTrim raw
  if token.head? == some '[' && token.getLast? == some ']' then
    TArg.arr (parseArrayLiteral token)
  else if token.head? == some quoteChar && token.getLast? == some quoteChar then
    TArg.str (String.mk (token.tail.dropLast))
  else TArg.str (String.mk token)

/-- `parseTransformationArgs(argsString)` of `formatStringWithData.ts`. -/
def parseTransformationArgs (argsString : List Char) : List TArg :=
  (execArgsLoop argsString.length argsString).map classifyToken

/-- What a transformation call returns before the replacement-callback
coercion: `default` can return its fallback argument verbatim — a string, an
array, or JavaScript `undefined` when the fallback argument is missing. -/
inductive TRet where
  | str (s : String)
  | arr (l : List String)
  | undef

/-- The coercion `String.prototype.replace` applies to a non-string callback
result: `String(result)`, so `undefined` becomes the text `"undefined"` and an
array joins with commas. -/
def TRet.display : TRet → String
  | TRet.str s => s
  | TRet.arr l => joinComma l
  | TRet.undef => "undefined"

/-- The `default` transformation:
`value === undefined || value === null ? defaultValue : String(value)`.
The fallback is the second parsed argument if any; when absent, JavaScript
passes `undefined`, which is then returned verbatim. -/
def defaultTransform (value : Option Json) (fallback : Option TArg) : TRet :=
  let fb : TRet :=
    match fallback with
    | none => TRet.undef
    | some (TArg.str s) => TRet.str s
    | some (TArg.arr l) => TRet.arr l
  match value with
  | none => fb
  | some Json.null => fb
  | some v => TRet.str (jsString v)

/-- Hinnant's `civil_from_days`: days since 1970-01-01 to `(year, month, day)`
in the proleptic Gregorian calendar, used to model the host's UTC date
rendering. -/
def civilFromDays (z0 : Int) : Int × Int × Int :=
  let z := z0 + 719468
  let era := Int.fdiv z 146097
  let doe := z - era * 146097
  let yoe := Int.fdiv (doe - Int.fdiv doe 1460 + Int.fdiv doe 36524 - Int.fdiv doe 146096) 365
  let y := yoe + era * 400
  let doy := doe - (365 * yoe + Int.fdiv yoe 4 - Int.fdiv yoe 100)
  let mp := Int.fdiv (5 * doy + 2) 153
  let d := doy - Int.fdiv (153 * mp + 2) 5 + 1
  let m := mp + (if mp < 10 then 3 else -9)
  (if m ≤ 2 then y + 1 else y, m, d)

/-- Hinnant's `days_from_civil`: `(year, month, day)` to days since epoch. -/
def daysFromCivil (y0 m d : Int) : Int :=
  let y := if m ≤ 2 then y0 - 1 else y0
  let era := Int.fdiv y 400
  let yoe := y - era * 400
  let doy := Int.fdiv (153 * (m + (if 2 < m then -3 else 9)) + 2) 5 + d - 1
  let doe := yoe * 365 + Int.fdiv yoe 4 - Int.fdiv yoe 100 + doy
  era * 146097 + doe - 719468

/-- Model of the host rendering pipeline `new Date(ms)` followed by
`isNaN(date.getTime())` and `toLocaleDateString()`: instants beyond the
ECMAScript time range (`|ms| > 8.64e15`) are invalid and hit the `"#ERROR"`
branch; valid instants render as the en-US short date `M/D/YYYY` of the UTC
calendar day. -/
def renderDate (ms : Int) : String :=
  if 8640000000000000 < ms.natAbs then "#ERROR"
  else
    let days := Int.fdiv ms 86400000
    let c := civilFromDays days
    toString c.2.1 ++ "/" ++ toString c.2.2 ++ "/" ++ toString c.1

/-- Model of the host date-string parser (`new Date(string)`), restricted to
strict ISO `YYYY-MM-DD` dates read as UTC midnight; every other string is an
invalid date.  Validity of the calendar date is checked by a round trip
through the civil-calendar conversion. -/
def jsParseDate (s : String) : Option Int :=
  match s.data with
  | [y1, y2, y3, y4, h1, mo1, mo2, h2, d1, d2] =>
    if [y1, y2, y3, y4, mo1, mo2, d1, d2].all Char.isDigit && h1 == '-' && h2 == '-' then
      let y : Int := (digitsVal [y1, y2, y3, y4] : Nat)
      let mo : Int := (digitsVal [mo1, mo2] : Nat)
      let d : Int := (digitsVal [d1, d2] : Nat)
      let days := daysFromCivil y mo d
      if civilFromDays days = (y, mo, d) then some (days * 86400000) else none
    else none
  | _ => none

/-- The `date` transformation of `formatStringWithData.ts`: empty-string and
nullish values yield `""`; a number below `1e11` is seconds since epoch,
otherwise milliseconds; any other value goes through `new Date(value)`
(booleans coerce to a numeric timestamp, arrays to their display string,
plain objects are never valid dates); an invalid resulting instant yields
`"#ERROR"`. -/
def dateTransform (value : Option Json) : String :=
  match value with
  | none => ""
  | some Json.null => ""
  | some (Json.num n) => renderDate (if n < 100000000000 then n * 1000 else n)
  | some (Json.str s) =>
    if s.data.isEmpty then ""
    else
      match jsParseDate s with
      | some ms => renderDate ms
      | none => "#ERROR"
  | some (Json.bool b) => renderDate (if b then 1 else 0)
  | some (Json.arr l) =>
    match jsParseDate (jsStringArr l) with
    | some ms => renderDate ms
    | none => "#ERROR"
  | some (Json.obj _) => "#ERROR"

/-- Global literal substring replacement
(`result.split(search).join(replace)` for a nonempty `search`): leftmost,
non-overlapping.  Fuel bounds the scan by the input length. -/
def replaceAllAux (sep rep : List Char) : Nat → List Char → List Char
  | _, [] => []
  | 0, s => s
  | n + 1, c :: rest =>
    if sep.isPrefixOf (c :: rest) then
      rep ++ replaceAllAux sep rep n ((c :: rest).drop sep.length)
    else c :: replaceAllAux sep rep n rest

/-- String-level wrapper for `replaceAllAux`. -/
def jsReplaceAll (s sep rep : String) : String :=
  String.mk (replaceAllAux sep.data rep.data s.data.length s.data)

/-- JavaScript destructuring `const [search, replace] of replacePairs` on a
parsed argument: arrays destructure by element, strings (being iterable)
by character; missing positions are `undefined`. -/
def destructurePair : TArg → Option String × Option String
  | TArg.arr l => (l.get? 0, l.get? 1)
  | TArg.str s =>
    ((s.data.get? 0).map (fun c => String.mk [c]),
     (s.data.get? 1).map (fun c => String.mk [c]))

/-- JavaScript `String(x)` for `x` a string or `undefined`. -/
def strOrUndefined : Option String → String
  | some s => s
  | none => "undefined"

/-- One iteration of the `replace` loop: skip when `search === ""`, otherwise
replace every occurrence of `String(search)` with `String(replace)`. -/
def replaceStep (acc : String) (pair : TArg) : String :=
  let p := destructurePair pair
  if p.1 == some "" then acc
  else jsReplaceAll acc (strOrUndefined p.1) (strOrUndefined p.2)

/-- The `replace` transformation: start from `String(value ?? "")` and apply
the pairs in argument order, each operating on the previous output. -/
def replaceTransform (value : Option Json) (pairs : List TArg) : String :=
  let start :=
    match value with
    | none => ""
    | some Json.null => ""
    | some v => jsString v
  pairs.foldl replaceStep start

/-- The own property names of `defaultTransformations`
(`hasOwnProperty` check). -/
def transformationNames : List String := ["default", "date", "replace"]

/-- Dispatch on the transformation name (only called for registry names). -/
def callTransformation (name : String) (value : Option Json) (args : List TArg) : TRet :=
  if name = "default" then defaultTransform value args.head?
  else if name = "date" then TRet.str (dateTransform value)
  else TRet.str (replaceTransform value args)

/-- The classification regex `^(\w+)\((.*)\)$` on a trimmed placeholder body:
a nonempty run of word characters, an opening parenthesis, any characters
without a line terminator (`.` does not match those), and a closing
parenthesis at the very end (the greedy `.*` pairs the first `(` with the
last character, which must be `)`).  Returns the name and the raw argument
text. -/
def matchTransformCall (t : List Char) : Option (String × List Char) :=
  let name := t.takeWhile isWordChar
  let rest := t.dropWhile isWordChar
  if !name.isEmpty && rest.head? == some '(' && rest.getLast? == some ')'
      && (rest.tail.dropLast).all (fun c => !isLineTerm c) then
    some (String.mk name, rest.tail.dropLast)
  else none

/-- The plain-key-path substitution text
(`value !== undefined && value !== null ? String(value) : ""`). -/
def displayResolved : Option Json → String
  | none => ""
  | some Json.null => ""
  | some v => jsString v

/-- The replacement callback of `formatStringWithData`: trim the placeholder
body; empty bodies yield `""`; a transformation call checks the registry
(unknown names yield `"#ERROR"`), parses the arguments, resolves the first
argument as a key path when truthy, and calls the transformation with the
remaining arguments (coercing its result as `String.prototype.replace` does);
otherwise the body is a plain key path whose resolved value is displayed,
with `undefined` and `null` rendered as `""`. -/
def evalPlaceholder (d : Json) (content : List Char) : String :=
  let t := jsTrim content
  if t.isEmpty then ""
  else
    match matchTransformCall t with
    | some nameArgs =>
      if transformationNames.contains nameArgs.1 then
        let parsedArgs := parseTransformationArgs nameArgs.2
        let keyArg := parsedArgs.headD (TArg.str "")
        let dataValue := if keyArg.truthy then resolveDataPath d keyArg.display else none
        (callTransformation nameArgs.1 dataValue parsedArgs.tail).display
      else "#ERROR"
    | none => displayResolved (resolveDataPath d (String.mk t))

/-- Whether a region match of `/{{([^{}]*?)}}/` starts at `c :: rest`: two
opening braces, then (after the run of non-brace characters) two closing
braces. -/
def scanCond (c : Char) (rest : List Char) : Bool :=
  c == '{' && rest.head? == some '{'
    && (rest.tail.dropWhile isNotBrace).head? == some '}'
    && (rest.tail.dropWhile isNotBrace).tail.head? == some '}'

/-- The scanner `template.replace(/{{([^{}]*?)}}/g, …)`: at each position, a
region opens with two braces, continues with non-brace characters, and closes
at the first following brace pair; a matched region is replaced by the
callback result and scanning resumes after it; otherwise the character is
literal and scanning advances by one (which also leaves any unterminated
`{{` as literal text).  Fuel bounds the scan by the template length; every
step consumes at least one character. -/
def scanTemplate (d : Json) : Nat → List Char → List Char
  | 0, cs => cs
  | _ + 1, [] => []
  | n + 1, c :: rest =>
    if scanCond c rest then
      (evalPlaceholder d (rest.tail.takeWhile isNotBrace)).data
        ++ scanTemplate d n ((rest.tail.dropWhile isNotBrace).tail.tail)
    else c :: scanTemplate d n rest

/-- Whether a character list contains two adjacent closing braces `}}`
(the only way a placeholder region can close). -/
def hasClose : List Char → Bool
  | [] => false
  | c :: r => (c == '}' && r.head? == some '}') || hasClose r

/-- JavaScript falsiness on `Json` values, for `data || {}`.  (`NaN`, the one
other falsy number, is not representable in the integer model.) -/
def jsFalsy : Json → Bool
  | Json.null => true
  | Json.bool b => !b
  | Json.num n => n == 0
  | Json.str s => s.data.isEmpty
  | _ => false

/-- `const dataToUse = data || {}` (with `none` as the absent argument). -/
def dataToUse (data : Option Json) : Json :=
  match data with
  | none => Json.obj JsonKVs.nil
  | some j => if jsFalsy j then Json.obj JsonKVs.nil else j

/-- `formatStringWithData(template, data)` of `formatStringWithData.ts`:
falsy (absent or empty) templates yield `""`; otherwise scan and substitute
every placeholder region. -/
def formatStringWithData (template : Option String) (data : Option Json) : String :=
  match template with
  | none => ""
  | some s =>
    if s.data.isEmpty then ""
    else String.mk (scanTemplate (dataToUse data) s.data.length s.data)

/-! ### Helper lemmas -/

theorem dropWhile_len_le (p : Char → Bool) : ∀ l : List Char, (l.dropWhile p).length ≤ l.length
  | [] => le_refl _
  | c :: rest => by
    rw [List.dropWhile_cons]
    by_cases h : p c = true
    · rw [if_pos h]
      exact le_trans (dropWhile_len_le p rest) (Nat.le_succ _)
    · rw [if_neg h]

theorem takeWhile_eq_self_of_all {p : Char → Bool} :
    ∀ {l : List Char}, (∀ c ∈ l, p c = true) → l.takeWhile p = l
  | [], _ => rfl
  | c :: rest, h => by
    rw [List.takeWhile_cons, if_pos (h c (List.mem_cons_self c rest))]
    exact congrArg _ (takeWhile_eq_self_of_all fun x hx => h x (List.mem_cons_of_mem c hx))

theorem dropWhile_eq_nil_of_all {p : Char → Bool} :
    ∀ {l : List Char}, (∀ c ∈ l, p c = true) → l.dropWhile p = []
  | [], _ => rfl
  | c :: rest, h => by
    rw [List.dropWhile_cons, if_pos (h c (List.mem_cons_self c rest))]
    exact dropWhile_eq_nil_of_all fun x hx => h x (List.mem_cons_of_mem c hx)

theorem takeWhile_append_stop {p : Char → Bool} {l : List Char} (c : Char) (r : List Char)
    (hl : ∀ a ∈ l, p a = true) (hc : p c = false) :
    (l ++ c :: r).takeWhile p = l := by
  rw [List.takeWhile_append, takeWhile_eq_self_of_all hl, if_pos rfl,
    List.takeWhile_cons, hc]
  simp

theorem dropWhile_append_stop {p : Char → Bool} {l : List Char} (c : Char) (r : List Char)
    (hl : ∀ a ∈ l, p a = true) (hc : p c = false) :
    (l ++ c :: r).dropWhile p = c :: r := by
  rw [List.dropWhile_append, dropWhile_eq_nil_of_all hl]
  simp [List.dropWhile_cons, hc]

theorem scan_nil (d : Json) : ∀ n : Nat, scanTemplate d n [] = []
  | 0 => rfl
  | _ + 1 => rfl

theorem scan_single (d : Json) (body after : List Char) (n : Nat)
    (hb : ∀ c ∈ body, isNotBrace c = true) :
    scanTemplate d (n + 1) ('{' :: '{' :: (body ++ '}' :: '}' :: after))
      = (evalPlaceholder d body).data ++ scanTemplate d n after := by
  have ht : List.takeWhile isNotBrace (body ++ '}' :: '}' :: after) = body :=
    takeWhile_append_stop _ _ hb (by decide)
  have hd : List.dropWhile isNotBrace (body ++ '}' :: '}' :: after) = '}' :: '}' :: after :=
    dropWhile_append_stop _ _ hb (by decide)
  simp [scanTemplate, scanCond, ht, hd]

theorem format_single_placeholder (body : List Char) (data : Option Json)
    (hb : ∀ c ∈ body, isNotBrace c = true) :
    formatStringWithData (some (String.mk ('{' :: '{' :: (body ++ ['}', '}'])))) data
      = evalPlaceholder (dataToUse data) body := by
  show (if (('{' :: '{' :: (body ++ ['}', '}'])).isEmpty = true) then ""
        else String.mk (scanTemplate (dataToUse data)
          ('{' :: '{' :: (body ++ ['}', '}'])).length ('{' :: '{' :: (body ++ ['}', '}'])))) = _
  rw [if_neg (by simp)]
  have hlen : ('{' :: '{' :: (body ++ ['}', '}'])).length = (body.length + 3) + 1 := by
    simp [List.length_append]
  rw [hlen, scan_single _ _ _ _ hb, scan_nil, List.append_nil]

theorem scan_cons_pos (d : Json) (n : Nat) (c : Char) (rest : List Char)
    (h : scanCond c rest = true) :
    scanTemplate d (n + 1) (c :: rest)
      = (evalPlaceholder d (rest.tail.takeWhile isNotBrace)).data
          ++ scanTemplate d n ((rest.tail.dropWhile isNotBrace).tail.tail) := by
  show (if scanCond c rest then _ else _) = _
  rw [if_pos h]

theorem scan_cons_neg (d : Json) (n : Nat) (c : Char) (rest : List Char)
    (h : scanCond c rest = false) :
    scanTemplate d (n + 1) (c :: rest) = c :: scanTemplate d n rest := by
  show (if scanCond c rest then _ else _) = _
  rw [h]
  simp

theorem splitDot_ne_nil : ∀ cs : List Char, splitDot cs ≠ []
  | [] => by simp [splitDot]
  | c :: rest => by
    unfold splitDot
    by_cases h : c = '.'
    · rw [if_pos h]; simp
    · rw [if_neg h]
      cases hs : splitDot rest <;> simp

theorem resolve_dataToUse (data : Json) (path : String) :
    resolveDataPath (dataToUse (some data)) path = resolveDataPath data path := by
  by_cases h : jsFalsy data = true
  · have hd : dataToUse (some data) = Json.obj JsonKVs.nil := by simp [dataToUse, h]
    rw [hd]
    unfold resolveDataPath
    by_cases hp : path = ""
    · rw [if_pos hp, if_pos hp]
    · rw [if_neg hp, if_neg hp]
      obtain ⟨p, rest, hsplit⟩ : ∃ p rest, splitDot path.data = p :: rest := by
        cases hs : splitDot path.data with
        | nil => exact absurd hs (splitDot_ne_nil _)
        | cons p rest => exact ⟨p, rest, rfl⟩
      rw [hsplit]
      cases data with
      | null => rfl
      | bool b => rfl
      | num n => rfl
      | str s => rfl
      | arr l => simp [jsFalsy] at h
      | obj kvs => simp [jsFalsy] at h
  · have hd : dataToUse (some data) = data := by
      simp only [dataToUse]
      rw [if_neg h]
    rw [hd]

theorem splitDot_no_dot : ∀ {cs : List Char}, (∀ c ∈ cs, c ≠ '.') → splitDot cs = [cs]
  | [], _ => rfl
  | c :: rest, h => by
    unfold splitDot
    rw [if_neg (h c (List.mem_cons_self c rest))]
    rw [splitDot_no_dot fun x hx => h x (List.mem_cons_of_mem c hx)]

theorem splitDot_append_dot : ∀ (a : List Char) (b : List Char), (∀ c ∈ a, c ≠ '.') →
    splitDot (a ++ '.' :: b) = a :: splitDot b
  | [], b, _ => by simp [splitDot]
  | c :: a1, b, h => by
    show splitDot (c :: (a1 ++ '.' :: b)) = _
    conv_lhs => rw [splitDot]
    rw [if_neg (h c (List.mem_cons_self c a1))]
    rw [splitDot_append_dot a1 b fun x hx => h x (List.mem_cons_of_mem c hx)]

/-! ### Claim theorems -/

/-- Claim C10: for every template, formatting with a `null` data document
behaves identically to formatting with an empty object document (`data || {}`
maps both to the empty mapping). -/
theorem format_null_data_eq_empty_obj (template : Option String) :
    formatStringWithData template (some Json.null)
      = formatStringWithData template (some (jobj [])) := by
  cases template <;> rfl

/-- Claim C3: the `replace` transformation starts from the display string of
the value (missing/null treated as the empty string) and applies, in argument
order, one global literal substring replacement per `[search, replacement]`
pair, each pair operating on the previous pair's output, a pair with empty
`search` being a no-op; and the spec's concrete sequential example holds. -/
theorem replace_transformation_sequential :
    (∀ (value : Option Json) (pairs : List (String × String)),
        replaceTransform value (pairs.map fun q => TArg.arr [q.1, q.2])
          = pairs.foldl (fun acc q => if q.1 = "" then acc else jsReplaceAll acc q.1 q.2)
              (displayResolved value))
    ∧ formatStringWithData (some "\x7b\x7breplace(d, ['is','WAS'], ['test','T'])\x7d\x7d")
        (some (jobj [("d", Json.str "This is a test.")])) = "ThWAS WAS a T." := by
  refine ⟨?_, by decide⟩
  intro value pairs
  unfold replaceTransform
  rw [List.foldl_map]
  have hstart : (match value with
      | none => ""
      | some Json.null => ""
      | some v => jsString v) = displayResolved value := by
    cases value with
    | none => rfl
    | some v => cases v <;> rfl
  rw [hstart]
  congr 1
  funext acc q
  show replaceStep acc (TArg.arr [q.1, q.2]) = _
  unfold replaceStep destructurePair
  by_cases h : q.1 = ""
  · rw [if_pos (by simp [h]), if_pos h]
  · rw [if_neg (by simp [h]), if_neg h]
    rfl

/-- Claim C4: `default` returns the fallback exactly when the resolved value
is `NotFound` (undefined) or `null`, and otherwise returns the display string
of the value; the three concrete formatting examples of the spec hold. -/
theorem default_transformation_fallback :
    (∀ fallback : String, (defaultTransform none (some (TArg.str fallback))).display = fallback)
    ∧ (∀ fallback : String,
        (defaultTransform (some Json.null) (some (TArg.str fallback))).display = fallback)
    ∧ (∀ (v : Json) (fallback : String), v ≠ Json.null →
        (defaultTransform (some v) (some (TArg.str fallback))).display = jsString v)
    ∧ formatStringWithData (some "\x7b\x7bdefault(missing,'X')\x7d\x7d") (some (jobj [])) = "X"
    ∧ formatStringWithData (some "\x7b\x7bdefault(k,'X')\x7d\x7d")
        (some (jobj [("k", Json.null)])) = "X"
    ∧ formatStringWithData (some "\x7b\x7bdefault(k,'X')\x7d\x7d")
        (some (jobj [("k", Json.str "v")])) = "v" := by
  refine ⟨fun _ => rfl, fun _ => rfl, ?_, by decide, by decide, by decide⟩
  intro v fallback hv
  cases v with
  | null => exact absurd rfl hv
  | bool b => rfl
  | num n => rfl
  | str s => rfl
  | arr l => rfl
  | obj kvs => rfl

/-- Witness for the hypothesis-bearing part of `default_transformation_fallback`
at a concrete non-null value. -/
theorem default_transformation_fallback_witness :
    (defaultTransform (some (Json.str "v")) (some (TArg.str "X"))).display
      = jsString (Json.str "v") :=
  default_transformation_fallback.2.2.1 (Json.str "v") "X" (fun h => Json.noConfusion h)

/-- Claim C7 counterexample: a `default` call with a missing fallback argument
is an argument mismatch, yet the placeholder is replaced by the text
`"undefined"` (the verbatim JavaScript `undefined` coerced by the replacement
callback), not by the sentinel `"#ERROR"`. -/
theorem arg_mismatch_not_error :
    formatStringWithData (some "\x7b\x7bdefault(missing)\x7d\x7d") (some (jobj [])) = "undefined"
      ∧ formatStringWithData (some "\x7b\x7bdefault(missing)\x7d\x7d") (some (jobj [])) ≠ "#ERROR" := by
  constructor
  · decide
  · decide

/-- Claim C7 (amended): a failure arising inside a transformation is mapped to
the sentinel `"#ERROR"` (the `date` transformation maps every unparsable
nonempty string value to `"#ERROR"`), but an argument mismatch that raises no
failure is not detected: the transformation runs with `undefined` in place of
the missing pieces, so `default` without a fallback yields the text
`"undefined"`, and `replace` with a plain string in place of a pair array
destructures the string's characters. -/
theorem transformation_failure_handling :
    (∀ s : String, s.data.isEmpty = false → jsParseDate s = none →
        dateTransform (some (Json.str s)) = "#ERROR")
    ∧ formatStringWithData (some "\x7b\x7bdate(name)\x7d\x7d")
        (some (jobj [("name", Json.str "John Doe")])) = "#ERROR"
    ∧ formatStringWithData (some "\x7b\x7bdefault(missing)\x7d\x7d") (some (jobj []))
        = "undefined"
    ∧ formatStringWithData (some "\x7b\x7breplace(d, 'xy')\x7d\x7d")
        (some (jobj [("d", Json.str "x")])) = "y" := by
  refine ⟨?_, by decide, by decide, by decide⟩
  intro s hne hparse
  show (if s.data.isEmpty = true then ""
        else match jsParseDate s with
          | some ms => renderDate ms
          | none => "#ERROR") = "#ERROR"
  rw [if_neg (by simp [hne]), hparse]

/-- Witness for the hypothesis-bearing part of `transformation_failure_handling`
at the spec's concrete invalid date value. -/
theorem transformation_failure_handling_witness :
    dateTransform (some (Json.str "John Doe")) = "#ERROR" :=
  transformation_failure_handling.1 "John Doe" (by decide) (by decide)

theorem format_date_t (w : Int) :
    formatStringWithData (some "\x7b\x7bdate(t)\x7d\x7d") (some (jobj [("t", Json.num w)]))
      = dateTransform (some (Json.num w)) := by
  have h := format_single_placeholder ('d' :: 'a' :: 't' :: 'e' :: '(' :: 't' :: ')' :: [])
    (some (jobj [("t", Json.num w)])) (by decide)
  have hs : String.mk
      ('{' :: '{' :: (('d' :: 'a' :: 't' :: 'e' :: '(' :: 't' :: ')' :: []) ++ ['}', '}']))
      = "\x7b\x7bdate(t)\x7d\x7d" := by decide
  rw [hs] at h
  rw [h]
  rfl

/-- Claim C5 counterexample: for the numeric value `86400` (one day, in
seconds, hence below `1e11`), `format("{{date(t)}}", {t: 86400})` renders
1970-01-02 while `format("{{date(t)}}", {t: 86400000})` treats `86400000` as
seconds too (it is still below `1e11`) and renders 1972-09-27, so the claimed
equality fails below `1e8`. -/
theorem date_round_trip_counterexample :
    formatStringWithData (some "\x7b\x7bdate(t)\x7d\x7d") (some (jobj [("t", Json.num 86400)]))
      ≠ formatStringWithData (some "\x7b\x7bdate(t)\x7d\x7d")
          (some (jobj [("t", Json.num (86400 * 1000))])) := by
  decide

/-- Claim C5 (amended): `date` interprets a numeric value below `1e11` as
seconds and at/above as milliseconds, so the seconds/milliseconds round trip
`format("{{date(t)}}", {t: v}) = format("{{date(t)}}", {t: v*1000})` holds for
every `v` with `1e8 ≤ v < 1e11` — the range in which multiplying by `1000`
crosses the threshold — and in particular for the spec's pair
`1678886400` / `1678886400000`. -/
theorem date_seconds_ms_threshold (v : Int) (h1 : 100000000 ≤ v) (h2 : v < 100000000000) :
    formatStringWithData (some "\x7b\x7bdate(t)\x7d\x7d") (some (jobj [("t", Json.num v)]))
      = formatStringWithData (some "\x7b\x7bdate(t)\x7d\x7d")
          (some (jobj [("t", Json.num (v * 1000))])) := by
  rw [format_date_t, format_date_t]
  show renderDate (if v < 100000000000 then v * 1000 else v)
      = renderDate (if v * 1000 < 100000000000 then v * 1000 * 1000 else v * 1000)
  rw [if_pos h2, if_neg (by omega : ¬ v * 1000 < 100000000000)]

/-- Witness for `date_seconds_ms_threshold` at the spec's concrete timestamp,
together with the concrete rendering both sides produce. -/
theorem date_seconds_ms_threshold_witness :
    (formatStringWithData (some "\x7b\x7bdate(t)\x7d\x7d")
        (some (jobj [("t", Json.num 1678886400)]))
      = formatStringWithData (some "\x7b\x7bdate(t)\x7d\x7d")
          (some (jobj [("t", Json.num (1678886400 * 1000))])))
    ∧ formatStringWithData (some "\x7b\x7bdate(t)\x7d\x7d")
        (some (jobj [("t", Json.num 1678886400)])) = "3/15/2023" :=
  ⟨date_seconds_ms_threshold 1678886400 (by decide) (by decide), by decide⟩

/-- Claim C9: path resolution uses a canonical numeric segment as an index key
into an ordered sequence: for every array stored under `"items"` and every
canonical decimal index string, the path `items.<index>` resolves to the
element at that position; and the spec's concrete example
`format("{{items.0}}", {items:["apple","banana"]}) = "apple"` holds. -/
theorem array_index_path_resolution :
    (∀ (l : JsonList) (part : String) (n : Nat),
        isCanonDigits part.data = true → digitsVal part.data = n →
        resolveDataPath (jobj [("items", Json.arr l)]) ("items." ++ part) = l.get? n)
    ∧ formatStringWithData (some "\x7b\x7bitems.0\x7d\x7d")
        (some (jobj [("items", jarr [Json.str "apple", Json.str "banana"])])) = "apple" := by
  refine ⟨?_, by decide⟩
  intro l part n hc hv
  have hdigits : part.data.all Char.isDigit = true := by
    have hc' := hc
    unfold isCanonDigits at hc'
    simp only [Bool.and_eq_true] at hc'
    exact hc'.1.2
  have hnodot : ∀ c ∈ part.data, c ≠ '.' := by
    intro c hcm heq
    have hdig := List.all_eq_true.mp hdigits c hcm
    rw [heq] at hdig
    exact absurd hdig (by decide)
  have hpath : ("items." ++ part) ≠ "" := by
    intro h
    have hdd := congrArg String.data h
    rw [String.data_append] at hdd
    simp at hdd
  unfold resolveDataPath
  rw [if_neg hpath]
  have hdata : ("items." ++ part).data
      = ('i' :: 't' :: 'e' :: 'm' :: 's' :: []) ++ '.' :: part.data := by
    rw [String.data_append]
    rfl
  rw [hdata, splitDot_append_dot _ _ (by decide), splitDot_no_dot hnodot]
  show (match jsArrGet l part with
        | some nxt => some nxt
        | none => none) = l.get? n
  unfold jsArrGet
  rw [if_pos hc, hv]
  cases hg : JsonList.get? l n <;> simp [hg]

/-- Witness for the hypothesis-bearing part of `array_index_path_resolution`
at a concrete array and index. -/
theorem array_index_path_resolution_witness :
    resolveDataPath
        (jobj [("items", Json.arr (JsonList.cons (Json.str "apple")
          (JsonList.cons (Json.str "banana") JsonList.nil)))]) ("items." ++ "1")
      = JsonList.get? (JsonList.cons (Json.str "apple")
          (JsonList.cons (Json.str "banana") JsonList.nil)) 1 :=
  array_index_path_resolution.1 _ "1" 1 (by decide) (by decide)

theorem notWs_of_wordChar {c : Char} (h : isWordChar c = true) : isWsChar c = false := by
  by_cases h1 : c = ' '
  · subst h1; exact absurd h (by decide)
  by_cases h2 : c = '\t'
  · subst h2; exact absurd h (by decide)
  by_cases h3 : c = '\n'
  · subst h3; exact absurd h (by decide)
  by_cases h4 : c = '\r'
  · subst h4; exact absurd h (by decide)
  simp [isWsChar, h1, h2, h3, h4]

theorem notBrace_of_wordChar {c : Char} (h : isWordChar c = true) : isNotBrace c = true := by
  by_cases h1 : c = '{'
  · subst h1; exact absurd h (by decide)
  by_cases h2 : c = '}'
  · subst h2; exact absurd h (by decide)
  simp [isNotBrace, h1, h2]

theorem dropWhile_eq_self_of_head {p : Char → Bool} {cs : List Char}
    (h : ∀ c, cs.head? = some c → p c = false) : cs.dropWhile p = cs := by
  cases cs with
  | nil => rfl
  | cons c r => rw [List.dropWhile_cons, if_neg (by simp [h c rfl])]

theorem jsTrim_eq_self {cs : List Char}
    (h1 : ∀ c, cs.head? = some c → isWsChar c = false)
    (h2 : ∀ c, cs.getLast? = some c → isWsChar c = false) : jsTrim cs = cs := by
  unfold jsTrim
  rw [dropWhile_eq_self_of_head h1]
  rw [dropWhile_eq_self_of_head (fun c hc => h2 c (by rwa [List.head?_reverse] at hc))]
  rw [List.reverse_reverse]

theorem matchTransformCall_call (name args : List Char)
    (hw : ∀ c ∈ name, isWordChar c = true) (hn : name ≠ [])
    (hargs : ∀ c ∈ args, isLineTerm c = false) :
    matchTransformCall (name ++ '(' :: (args ++ [')'])) = some (String.mk name, args) := by
  unfold matchTransformCall
  have ht : (name ++ '(' :: (args ++ [')'])).takeWhile isWordChar = name :=
    takeWhile_append_stop _ _ hw (by decide)
  have hd : (name ++ '(' :: (args ++ [')'])).dropWhile isWordChar = '(' :: (args ++ [')']) :=
    dropWhile_append_stop _ _ hw (by decide)
  rw [ht, hd]
  have hlast : ('(' :: (args ++ [')'])).getLast? = some ')' := by
    show (('(' :: args) ++ [')']).getLast? = some ')'
    exact List.getLast?_concat _
  have hdl : ('(' :: (args ++ [')'])).tail.dropLast = args := by
    show (args ++ [')']).dropLast = args
    exact List.dropLast_concat
  rw [if_pos]
  · rw [hdl]
  · rw [hlast, hdl]
    simp [List.isEmpty_iff, hn, List.all_eq_true]
    exact hargs

/-- Claim C6: a placeholder classified as a transformation call whose
identifier is not in the registry (`default`, `date`, `replace`) is replaced
by the sentinel `"#ERROR"`, for every data document and every argument text;
in particular `format("{{bogus(x)}}", {x:1}) = "#ERROR"`. -/
theorem unknown_transformation_error (name args : String) (data : Option Json)
    (hw : ∀ c ∈ name.data, isWordChar c = true) (hn : name.data ≠ [])
    (hreg : transformationNames.contains name = false)
    (hargs : ∀ c ∈ args.data, isNotBrace c = true ∧ isLineTerm c = false) :
    formatStringWithData (some ("\x7b\x7b" ++ name ++ "(" ++ args ++ ")\x7d\x7d")) data
      = "#ERROR" := by
  have hT : ("\x7b\x7b" ++ name ++ "(" ++ args ++ ")\x7d\x7d")
      = String.mk ('{' :: '{' :: ((name.data ++ '(' :: (args.data ++ [')'])) ++ ['}', '}'])) := by
    apply String.ext
    simp [String.data_append]
  have hbody : ∀ c ∈ name.data ++ '(' :: (args.data ++ [')']), isNotBrace c = true := by
    intro c hcm
    rcases List.mem_append.mp hcm with h | h
    · exact notBrace_of_wordChar (hw c h)
    · rcases List.mem_cons.mp h with h | h
      · subst h; decide
      · rcases List.mem_append.mp h with h | h
        · exact (hargs c h).1
        · rcases List.mem_singleton.mp h with h
          subst h; decide
  rw [hT, format_single_placeholder _ _ hbody]
  have htrim : jsTrim (name.data ++ '(' :: (args.data ++ [')']))
      = name.data ++ '(' :: (args.data ++ [')']) := by
    apply jsTrim_eq_self
    · intro c hc
      cases hnm : name.data with
      | nil => exact absurd hnm hn
      | cons n0 nr =>
        rw [hnm] at hc
        simp only [List.cons_append, List.head?_cons, Option.some.injEq] at hc
        subst hc
        exact notWs_of_wordChar (hw n0 (by rw [hnm]; exact List.mem_cons_self _ _))
    · intro c hc
      have hshape : name.data ++ '(' :: (args.data ++ [')'])
          = (name.data ++ '(' :: args.data) ++ [')'] := by simp
      rw [hshape, List.getLast?_concat] at hc
      simp only [Option.some.injEq] at hc
      subst hc; decide
  have hmatch := matchTransformCall_call name.data args.data hw hn (fun c h => (hargs c h).2)
  have hne : (name.data ++ '(' :: (args.data ++ [')'])).isEmpty = false := by
    cases hnm : name.data with
    | nil => exact absurd hnm hn
    | cons n0 nr => simp
  show evalPlaceholder (dataToUse data) (name.data ++ '(' :: (args.data ++ [')'])) = "#ERROR"
  unfold evalPlaceholder
  rw [htrim]
  rw [if_neg (by simp [hne])]
  rw [hmatch]
  have heta : String.mk name.data = name := rfl
  simp [heta, hreg]
  intro hmem
  simp [hmem] at hreg

/-- Witness for `unknown_transformation_error` at the spec's concrete unknown
transformation example. -/
theorem unknown_transformation_error_witness :
    formatStringWithData (some ("\x7b\x7b" ++ "bogus" ++ "(" ++ "x" ++ ")\x7d\x7d"))
        (some (jobj [("x", Json.num 1)])) = "#ERROR" :=
  unknown_transformation_error "bogus" "x" _ (by decide) (by decide) (by decide) (by decide)

/-- Claim C1: a placeholder whose trimmed body is a plain key path (nonempty
after trimming, not matching the transformation-call pattern) is replaced by
the display string of the value resolved at that path when present and
non-null, and by the empty string when resolution yields NotFound or null —
for every data document. -/
theorem plain_path_placeholder (p : String) (data : Json)
    (hb : ∀ c ∈ p.data, isNotBrace c = true)
    (ht : (jsTrim p.data).isEmpty = false)
    (hnt : matchTransformCall (jsTrim p.data) = none) :
    formatStringWithData (some ("\x7b\x7b" ++ p ++ "\x7d\x7d")) (some data)
      = displayResolved (resolveDataPath data (String.mk (jsTrim p.data))) := by
  have hT : ("\x7b\x7b" ++ p ++ "\x7d\x7d") = String.mk ('{' :: '{' :: (p.data ++ ['}', '}'])) := by
    apply String.ext
    simp [String.data_append]
  rw [hT, format_single_placeholder _ _ hb]
  unfold evalPlaceholder
  rw [if_neg (by simp [ht]), hnt]
  show displayResolved (resolveDataPath (dataToUse (some data)) (String.mk (jsTrim p.data)))
      = displayResolved (resolveDataPath data (String.mk (jsTrim p.data)))
  rw [resolve_dataToUse]

/-- Witness for `plain_path_placeholder` at the spec's simple-key example,
together with the concrete display string it denotes. -/
theorem plain_path_placeholder_witness :
    (formatStringWithData (some ("\x7b\x7b" ++ "name" ++ "\x7d\x7d"))
        (some (jobj [("name", Json.str "x")]))
      = displayResolved (resolveDataPath (jobj [("name", Json.str "x")])
          (String.mk (jsTrim "name".data))))
    ∧ displayResolved (resolveDataPath (jobj [("name", Json.str "x")])
        (String.mk (jsTrim "name".data))) = "x" :=
  ⟨plain_path_placeholder "name" _ (by decide) (by decide) (by decide), by decide⟩

theorem scan_fuel_stable (d : Json) :
    ∀ (n : Nat) (cs : List Char), cs.length ≤ n →
      scanTemplate d n cs = scanTemplate d cs.length cs := by
  intro n
  induction n using Nat.strong_induction_on with
  | _ n ih =>
    intro cs hlen
    match n, cs with
    | n, [] => rw [scan_nil, scan_nil]
    | 0, c :: rest => simp at hlen
    | n + 1, c :: rest =>
      have hr : rest.length + 1 ≤ n + 1 := by simpa using hlen
      have hrem : ((rest.tail.dropWhile isNotBrace).tail.tail).length ≤ rest.length := by
        have g1 := dropWhile_len_le isNotBrace rest.tail
        have g2 : rest.tail.length = rest.length - 1 := List.length_tail _
        have g3 : ((rest.tail.dropWhile isNotBrace).tail.tail).length
            = (rest.tail.dropWhile isNotBrace).length - 1 - 1 := by
          rw [List.length_tail, List.length_tail]
        omega
      by_cases hcond : scanCond c rest = true
      · rw [scan_cons_pos d n c rest hcond]
        rw [show (c :: rest).length = rest.length + 1 from rfl]
        rw [scan_cons_pos d rest.length c rest hcond]
        congr 1
        rw [ih n (by omega) _ (by omega)]
        rw [ih rest.length (by omega) _ (by omega)]
      · have hcond' : scanCond c rest = false := by
          revert hcond; cases scanCond c rest <;> simp
        rw [scan_cons_neg d n c rest hcond']
        rw [show (c :: rest).length = rest.length + 1 from rfl]
        rw [scan_cons_neg d rest.length c rest hcond']
        congr 1
        rw [ih n (by omega) rest (by omega)]

theorem evalPlaceholder_match_some (d : Json) (content : List Char)
    (nameArgs : String × List Char)
    (h1 : (jsTrim content).isEmpty = false)
    (hm : matchTransformCall (jsTrim content) = some nameArgs) :
    evalPlaceholder d content
      = (if transformationNames.contains nameArgs.1 = true then
          (callTransformation nameArgs.1
            (if ((parseTransformationArgs nameArgs.2).headD (TArg.str "")).truthy = true then
              resolveDataPath d ((parseTransformationArgs nameArgs.2).headD (TArg.str "")).display
            else none)
            (parseTransformationArgs nameArgs.2).tail).display
        else "#ERROR") := by
  unfold evalPlaceholder
  rw [if_neg (by simp [h1]), hm]

theorem evalPlaceholder_match_none (d : Json) (content : List Char)
    (h1 : (jsTrim content).isEmpty = false)
    (hm : matchTransformCall (jsTrim content) = none) :
    evalPlaceholder d content
      = displayResolved (resolveDataPath d (String.mk (jsTrim content))) := by
  unfold evalPlaceholder
  rw [if_neg (by simp [h1]), hm]

/-- Claim C2: formatting is total and never propagates a failure — the scan of
any template terminates within fuel equal to the template length (extra fuel
never changes the result), the replacement callback always returns one of the
absorbed forms (the empty string, the sentinel `"#ERROR"`, the display string
of a resolved value, or a coerced transformation result), and an absent
template yields the empty string. -/
theorem format_total_and_absorbing :
    (∀ (d : Json) (n : Nat) (cs : List Char), cs.length ≤ n →
        scanTemplate d n cs = scanTemplate d cs.length cs)
    ∧ (∀ (d : Json) (content : List Char),
        evalPlaceholder d content = "" ∨ evalPlaceholder d content = "#ERROR"
          ∨ (∃ r : TRet, evalPlaceholder d content = r.display)
          ∨ (∃ v : Option Json, evalPlaceholder d content = displayResolved v))
    ∧ (∀ data : Option Json, formatStringWithData none data = "") := by
  refine ⟨fun d => scan_fuel_stable d, ?_, fun _ => rfl⟩
  intro d content
  by_cases h1 : (jsTrim content).isEmpty = true
  · left
    unfold evalPlaceholder
    rw [if_pos h1]
  · have h1' : (jsTrim content).isEmpty = false := by
      revert h1; cases (jsTrim content).isEmpty <;> simp
    cases hm : matchTransformCall (jsTrim content) with
    | some nameArgs =>
      by_cases h2 : transformationNames.contains nameArgs.1 = true
      · right; right; left
        exact ⟨_, by rw [evalPlaceholder_match_some d content nameArgs h1' hm, if_pos h2]⟩
      · right; left
        rw [evalPlaceholder_match_some d content nameArgs h1' hm, if_neg h2]
    | none =>
      right; right; right
      exact ⟨_, evalPlaceholder_match_none d content h1' hm⟩

/-- Witness for the hypothesis-bearing parts of `format_total_and_absorbing`
at a concrete template. -/
theorem format_total_and_absorbing_witness :
    scanTemplate Json.null 5 ('a' :: 'b' :: []) = scanTemplate Json.null 2 ('a' :: 'b' :: []) :=
  format_total_and_absorbing.1 Json.null 5 ('a' :: 'b' :: []) (by decide)

theorem hasClose_or (c : Char) (r : List Char) :
    hasClose (c :: r) = ((c == '}' && r.head? == some '}') || hasClose r) := rfl

theorem hasClose_of_dropWhile {p : Char → Bool} {l : List Char}
    (h : hasClose (l.dropWhile p) = true) : hasClose l = true := by
  induction l with
  | nil => simpa using h
  | cons c r ih =>
    rw [List.dropWhile_cons] at h
    by_cases hc : p c = true
    · rw [if_pos hc] at h
      rw [hasClose_or]
      simp [ih h]
    · rwa [if_neg hc] at h

theorem hasClose_of_tail {l : List Char} (h : hasClose l.tail = true) : hasClose l = true := by
  cases l with
  | nil => simpa using h
  | cons c r =>
    rw [hasClose_or]
    simp only [List.tail_cons] at h
    simp [h]

theorem hasClose_of_head2 {l : List Char} (h1 : l.head? = some '}')
    (h2 : l.tail.head? = some '}') : hasClose l = true := by
  cases l with
  | nil => simp at h1
  | cons c r =>
    simp only [List.head?_cons, Option.some.injEq] at h1
    subst h1
    simp only [List.tail_cons] at h2
    rw [hasClose_or]
    simp [h2]

theorem scan_noclose_id (d : Json) :
    ∀ (n : Nat) (cs : List Char), hasClose cs = false → scanTemplate d n cs = cs := by
  intro n
  induction n with
  | zero => intro cs h; rfl
  | succ n ih =>
    intro cs h
    cases cs with
    | nil => rfl
    | cons c rest =>
      have hcond : scanCond c rest = false := by
        by_contra hx
        have hx' : scanCond c rest = true := by
          revert hx; cases scanCond c rest <;> simp
        unfold scanCond at hx'
        simp only [Bool.and_eq_true, beq_iff_eq] at hx'
        obtain ⟨⟨⟨hc, hh⟩, h3⟩, h4⟩ := hx'
        have hcl : hasClose (rest.tail.dropWhile isNotBrace) = true :=
          hasClose_of_head2 h3 h4
        have : hasClose (c :: rest) = true :=
          hasClose_of_tail (show hasClose rest = true from
            hasClose_of_tail (hasClose_of_dropWhile hcl))
      
        rw [this] at h
        exact Bool.noConfusion h
      rw [scan_cons_neg d n c rest hcond]
      congr 1
      apply ih
      rw [hasClose_or] at h
      cases hcr : hasClose rest with
      | false => rfl
      | true => rw [hcr] at h; simp at h

theorem dropWhile_append_of_ne_nil {p : Char → Bool} {a : List Char} (b : List Char)
    (h : a.dropWhile p ≠ []) : (a ++ b).dropWhile p = a.dropWhile p ++ b := by
  rw [List.dropWhile_append, if_neg (by simp [List.isEmpty_iff, h])]

theorem takeWhile_append_of_ne_nil {p : Char → Bool} {a : List Char} (b : List Char)
    (h : a.dropWhile p ≠ []) : (a ++ b).takeWhile p = a.takeWhile p := by
  rw [List.takeWhile_append]
  rw [if_neg ?hlen]
  case hlen =>
    intro hl
    apply h
    have hsum := congrArg List.length (List.takeWhile_append_dropWhile p a)
    rw [List.length_append, hl] at hsum
    have : (a.dropWhile p).length = 0 := by omega
    exact List.length_eq_zero.mp this

theorem scan_append_noclose (d : Json) (v : List Char)
    (h1 : v.head? = some '{') (h2 : v.tail.head? = some '{')
    (hnc : hasClose v = false) :
    ∀ (n : Nat) (u : List Char), u.length ≤ n →
      scanTemplate d (n + v.length) (u ++ v) = scanTemplate d n u ++ v := by
  obtain ⟨v1, rfl⟩ : ∃ v1, v = '{' :: v1 := by
    cases v with
    | nil => simp at h1
    | cons w ws =>
      simp only [List.head?_cons, Option.some.injEq] at h1
      subst h1
      exact ⟨ws, rfl⟩
  obtain ⟨v2, rfl⟩ : ∃ v2, v1 = '{' :: v2 := by
    simp only [List.tail_cons] at h2
    cases v1 with
    | nil => simp at h2
    | cons w ws =>
      simp only [List.head?_cons, Option.some.injEq] at h2
      subst h2
      exact ⟨ws, rfl⟩
  intro n
  induction n with
  | zero =>
    intro u hu
    have hu0 : u = [] := List.length_eq_zero.mp (Nat.le_zero.mp hu)
    subst hu0
    rw [List.nil_append, scan_noclose_id d _ _ hnc, scan_nil, List.nil_append]
  | succ n ih =>
    intro u hu
    cases u with
    | nil =>
      rw [List.nil_append, scan_noclose_id d _ _ hnc, scan_nil, List.nil_append]
    | cons c u1 =>
      have hlen1 : u1.length ≤ n := by simpa using hu
      have hstep : (n + 1) + ('{' :: '{' :: v2).length
          = (n + ('{' :: '{' :: v2).length) + 1 := by omega
      rw [List.cons_append, hstep]
      by_cases hcond : scanCond c (u1 ++ '{' :: '{' :: v2) = true
      · have hx := hcond
        unfold scanCond at hx
        simp only [Bool.and_eq_true, beq_iff_eq] at hx
        obtain ⟨⟨⟨hc, hh⟩, h3⟩, h4⟩ := hx
        subst hc
        cases u1 with
        | nil =>
          exfalso
          rw [List.nil_append] at h3
          simp only [List.tail_cons] at h3
          rw [List.dropWhile_cons, if_neg (by decide)] at h3
          simp at h3
        | cons c1 u2 =>
          rw [List.cons_append] at hh h3 h4
          simp only [List.head?_cons, Option.some.injEq] at hh
          subst hh
          simp only [List.tail_cons] at h3 h4
          cases hdw : List.dropWhile isNotBrace u2 with
          | nil =>
            exfalso
            rw [List.dropWhile_append, hdw] at h3
            simp only [List.isEmpty_nil, if_true] at h3
            rw [List.dropWhile_cons, if_neg (by decide)] at h3
            simp at h3
          | cons e E =>
            have hne : List.dropWhile isNotBrace u2 ≠ [] := by rw [hdw]; simp
            rw [dropWhile_append_of_ne_nil _ hne, hdw] at h3 h4
            simp only [List.cons_append, List.head?_cons, Option.some.injEq] at h3
            subst h3
            cases E with
            | nil =>
              exfalso
              simp only [List.cons_append, List.tail_cons, List.nil_append] at h4
              simp at h4
            | cons e2 E2 =>
              simp only [List.cons_append, List.tail_cons, List.head?_cons,
                Option.some.injEq] at h4
              subst h4
              have hE2len : E2.length ≤ n := by
                have hd := dropWhile_len_le isNotBrace u2
                rw [hdw] at hd
                simp only [List.length_cons] at hd
                have hu2 : u2.length + 1 ≤ n := by simpa using hlen1
                omega
              rw [scan_cons_pos d _ _ _ hcond]
              have hcond2 : scanCond '{' ('{' :: u2) = true := by
                unfold scanCond
                simp only [List.head?_cons, List.tail_cons, hdw]
                simp
              rw [scan_cons_pos d n _ _ hcond2]
              simp only [List.cons_append, List.tail_cons]
              rw [takeWhile_append_of_ne_nil _ hne, dropWhile_append_of_ne_nil _ hne, hdw]
              simp only [List.cons_append, List.tail_cons, hdw]
              rw [ih _ hE2len, List.append_assoc]
      · have hcondf : scanCond c (u1 ++ '{' :: '{' :: v2) = false := by
          revert hcond; cases scanCond c (u1 ++ '{' :: '{' :: v2) <;> simp
        have hcondu : scanCond c u1 = false := by
          by_contra hx
          have hx' : scanCond c u1 = true := by
            revert hx; cases scanCond c u1 <;> simp
          unfold scanCond at hx'
          simp only [Bool.and_eq_true, beq_iff_eq] at hx'
          obtain ⟨⟨⟨hc, hh⟩, h3⟩, h4⟩ := hx'
          subst hc
          cases u1 with
          | nil => simp at hh
          | cons c1 u2 =>
            simp only [List.head?_cons, Option.some.injEq] at hh
            subst hh
            simp only [List.tail_cons] at h3 h4
            have hdne : List.dropWhile isNotBrace u2 ≠ [] := by
              intro hnil; rw [hnil] at h3; simp at h3
            have hcc : scanCond '{' (('{' :: u2) ++ '{' :: '{' :: v2) = true := by
              unfold scanCond
              simp only [List.cons_append, List.head?_cons, List.tail_cons]
              rw [dropWhile_append_of_ne_nil _ hdne]
              cases hdw : List.dropWhile isNotBrace u2 with
              | nil => exact absurd hdw hdne
              | cons e E =>
                rw [hdw] at h3 h4
                simp only [List.head?_cons, Option.some.injEq] at h3
                subst h3
                cases E with
                | nil => simp at h4
                | cons e2 E2 =>
                  simp only [List.tail_cons, List.head?_cons, Option.some.injEq] at h4
                  subst h4
                  simp
            rw [hcc] at hcondf
            exact Bool.noConfusion hcondf
        rw [scan_cons_neg d _ _ _ hcondf]
        rw [scan_cons_neg d n _ _ hcondu]
        rw [List.cons_append]
        congr 1
        exact ih u1 hlen1

/-- Claim C8: a `{{` with no subsequent `}}` before the end of the input is
left in the output as literal text, unmodified, delimiters included: for
every template split as `u ++ v` where the suffix `v` starts with `{{` and
contains no `}}`, and every data document, formatting `u ++ v` equals
formatting `u` followed by the untouched text `v`; in particular
`format("{{name", {name:"x"}) = "{{name"`. -/
theorem unterminated_placeholder_literal (u v : String) (data : Option Json)
    (hv1 : v.data.head? = some '{') (hv2 : v.data.tail.head? = some '{')
    (hnc : hasClose v.data = false) :
    formatStringWithData (some (u ++ v)) data = formatStringWithData (some u) data ++ v := by
  have hvne : v.data.isEmpty = false := by
    cases hvd : v.data with
    | nil => rw [hvd] at hv1; simp at hv1
    | cons w ws => rfl
  by_cases hu : u.data = []
  · have hu0 : u = "" := String.ext (by rw [hu])
    subst hu0
    have hv : ("" : String) ++ v = v := String.ext (by rw [String.data_append]; rfl)
    rw [hv]
    show formatStringWithData (some v) data = formatStringWithData (some "") data ++ v
    rw [show formatStringWithData (some "") data = "" from rfl]
    rw [hv]
    show (if v.data.isEmpty = true then ""
          else String.mk (scanTemplate (dataToUse data) v.data.length v.data)) = v
    rw [if_neg (fun h => Bool.noConfusion (h ▸ hvne))]
    rw [scan_noclose_id (dataToUse data) _ _ hnc]
  · have hneu : u.data.isEmpty = false := by
      cases hud : u.data with
      | nil => exact absurd hud hu
      | cons c u1 => rfl
    have hne : (u ++ v).data.isEmpty = false := by
      rw [String.data_append]
      cases hud : u.data with
      | nil => exact absurd hud hu
      | cons c u1 => rfl
    show (if (u ++ v).data.isEmpty = true then ""
          else String.mk (scanTemplate (dataToUse data) (u ++ v).data.length (u ++ v).data))
        = formatStringWithData (some u) data ++ v
    rw [if_neg (fun h => Bool.noConfusion (h ▸ hne))]
    show _ = (if u.data.isEmpty = true then ""
          else String.mk (scanTemplate (dataToUse data) u.data.length u.data)) ++ v
    rw [if_neg (fun h => Bool.noConfusion (h ▸ hneu))]
    apply String.ext
    rw [String.data_append]
    show (scanTemplate (dataToUse data) (u ++ v).data.length (u ++ v).data)
        = (scanTemplate (dataToUse data) u.data.length u.data) ++ v.data
    rw [String.data_append, List.length_append]
    exact scan_append_noclose (dataToUse data) v.data hv1 hv2 hnc u.data.length u.data
      (le_refl _)

/-- Witness for `unterminated_placeholder_literal` at the spec's concrete
unterminated-placeholder example. -/
theorem unterminated_placeholder_literal_witness :
    (formatStringWithData (some ("" ++ "\x7b\x7bname")) (some (jobj [("name", Json.str "x")]))
      = formatStringWithData (some "") (some (jobj [("name", Json.str "x")])) ++ "\x7b\x7bname")
    ∧ formatStringWithData (some "\x7b\x7bname") (some (jobj [("name", Json.str "x")]))
        = "\x7b\x7bname" :=
  ⟨unterminated_placeholder_literal "" "\x7b\x7bname" _ (by decide) (by decide) (by decide),
   by decide⟩
